import Mathlib

/-!
# Verification of the github-trend-predictor feature pipeline

Shallow embedding of the core of `src/github_predictor/pipelines/feature_pipeline`
(`trending_labeler.py`, `gh_archive_scraper.py`, `feature_enricher.py`) together
with proofs about it.

Modelling conventions:
* Python `datetime.date`s are modelled by the `Date` structure (year, month, day)
  and by their proleptic-Gregorian ordinal (`Date.toOrdinal`, the same numbering
  as Python's `date.toordinal`: 0001-01-01 has ordinal 1).  `datetime + timedelta(days=n)`
  is ordinal addition.
* Python strings are Lean `String`s; Python's string comparison (by code point)
  is `String`'s lexicographic order.
* `datetime.fromisoformat` applied to a date-only string is modelled by
  `parseDate`, which accepts exactly the zero-padded `YYYY-MM-DD` form that
  `strftime("%Y-%m-%d")` produces (the only form this pipeline writes),
  validating the calendar date as Python does.
* Network fetches and other external effects are oracle parameters; an
  exception raised by an external call is an `Except.error`.
* Python `float` arithmetic is modelled by exact rational arithmetic `ℚ`;
  `int(x)` on a non-negative value is `Int.floor`.
-/

namespace GithubTrendPredictor

/-! ## Calendar dates (model of Python `datetime.date`) -/

/-- Gregorian leap-year rule, as in Python's `calendar`/`datetime`. -/
def isLeapYear (y : Nat) : Bool :=
  (y % 4 == 0 && y % 100 != 0) || y % 400 == 0

/-- Number of days in month `m` (1–12) of year `y`. -/
def daysInMonth (y m : Nat) : Nat :=
  if m = 2 then (if isLeapYear y then 29 else 28)
  else if m = 4 ∨ m = 6 ∨ m = 9 ∨ m = 11 then 30
  else 31

/-- Days in months `1 .. m-1` of year `y`. -/
def daysBeforeMonth (y m : Nat) : Nat :=
  (List.range' 1 (m - 1)).foldl (fun acc i => acc + daysInMonth y i) 0

/-- A calendar date. -/
structure Date where
  year : Nat
  month : Nat
  day : Nat
deriving DecidableEq, Repr

/-- Validity of a calendar date in Python's `datetime` range
(`datetime.MINYEAR = 1`, `datetime.MAXYEAR = 9999`). -/
def Date.Valid (dt : Date) : Prop :=
  1 ≤ dt.year ∧ dt.year ≤ 9999 ∧ 1 ≤ dt.month ∧ dt.month ≤ 12 ∧
    1 ≤ dt.day ∧ dt.day ≤ daysInMonth dt.year dt.month

instance (dt : Date) : Decidable dt.Valid := by
  unfold Date.Valid; infer_instance

/-- Proleptic-Gregorian ordinal of a date, identical to Python's
`date.toordinal` (0001-01-01 ↦ 1). -/
def Date.toOrdinal (dt : Date) : Nat :=
  (dt.year - 1) * 365 + (dt.year - 1) / 4 - (dt.year - 1) / 100 + (dt.year - 1) / 400 +
    daysBeforeMonth dt.year dt.month + dt.day

/-- The day after `dt` (model of `date + timedelta(days=1)`). -/
def Date.next (dt : Date) : Date :=
  if dt.day < daysInMonth dt.year dt.month then ⟨dt.year, dt.month, dt.day + 1⟩
  else if dt.month < 12 then ⟨dt.year, dt.month + 1, 1⟩
  else ⟨dt.year + 1, 1, 1⟩

/-- Model of `dt + timedelta(days=n)`. -/
def Date.addDays (dt : Date) : Nat → Date
  | 0 => dt
  | n + 1 => (dt.addDays n).next

/-- Digit character for `n < 10`. -/
def digitChar (n : Nat) : Char :=
  Char.ofNat ('0'.toNat + n)

/-- Model of `strftime("%Y-%m-%d")`: zero-padded `YYYY-MM-DD` (years of this pipeline
are four-digit). -/
def Date.format (dt : Date) : String :=
  ⟨[digitChar (dt.year / 1000 % 10), digitChar (dt.year / 100 % 10),
    digitChar (dt.year / 10 % 10), digitChar (dt.year % 10), '-',
    digitChar (dt.month / 10 % 10), digitChar (dt.month % 10), '-',
    digitChar (dt.day / 10 % 10), digitChar (dt.day % 10)]⟩

/-- Numeric value of a digit character. -/
def digitVal (c : Char) : Nat := c.toNat - '0'.toNat

/-- Model of `datetime.fromisoformat` on the `YYYY-MM-DD` strings this pipeline writes:
ten characters, zero-padded, calendar-validated; anything else is a
`ValueError` (`none`). -/
def parseDate (s : String) : Option Date :=
  match s.data with
  | [y1, y2, y3, y4, '-', m1, m2, '-', d1, d2] =>
    if y1.isDigit && y2.isDigit && y3.isDigit && y4.isDigit &&
        m1.isDigit && m2.isDigit && d1.isDigit && d2.isDigit then
      let dt : Date :=
        ⟨((digitVal y1 * 10 + digitVal y2) * 10 + digitVal y3) * 10 + digitVal y4,
          digitVal m1 * 10 + digitVal m2,
          digitVal d1 * 10 + digitVal d2⟩
      if dt.Valid then some dt else none
    else none
  | _ => none

/-! ## Trending History Store (`trending_labeler.TrendingHistory`)

`self.history` is a JSON object: a finite map from string keys to lists of
repository names, modelled as an association list in insertion order with
distinct keys (Python `dict` semantics: assignment to an existing key keeps
its position, a new key is appended).  Persistence (`_load`/`_save`) is
outside the model: claims are about the in-memory map. -/

abbrev History := List (String × List String)

/-- Model of `TrendingHistory.add_trending_list`: `self.history[date] = repo_names`
(Python dict assignment: replace in place if present, else append). -/
def addTrendingList (h : History) (date : String) (repoNames : List String) : History :=
  if h.any (fun kv => kv.1 = date) then
    h.map (fun kv => if kv.1 = date then (date, repoNames) else kv)
  else h ++ [(date, repoNames)]

/-- Lookup of `self.history[date]` (`None` when absent). -/
def histLookup (h : History) (date : String) : Option (List String) :=
  (h.find? (fun kv => kv.1 = date)).map (fun kv => kv.2)

/-- The loop body of `TrendingHistory.get_trending_repos`, with the two
endpoints already parsed to ordinals (`start`/`end` are `fromisoformat` of the
arguments; comparisons of the parsed datetimes are ordinal comparisons).  Keys
that fail to parse are skipped (the `except ValueError: continue` branch); the
Python `set` of names is modelled by a list read up to membership. -/
def trendStep (startOrd endOrd : Nat) (acc : List String) (kv : String × List String) :
    List String :=
  match parseDate kv.1 with
  | some dt =>
    if startOrd ≤ dt.toOrdinal ∧ dt.toOrdinal ≤ endOrd then acc ++ kv.2 else acc
  | none => acc

def getTrendingReposOrd (h : History) (startOrd endOrd : Nat) : List String :=
  h.foldl (trendStep startOrd endOrd) []

/-- Model of `TrendingHistory.get_trending_repos(start_date, end_date)`.
`datetime.fromisoformat` on a malformed endpoint raises (`none`). -/
def getTrendingRepos (h : History) (startStr endStr : String) : Option (List String) :=
  match parseDate startStr, parseDate endStr with
  | some s, some e => some (getTrendingReposOrd h s.toOrdinal e.toOrdinal)
  | _, _ => none

/-- Model of `TrendingHistory.is_trending_in_window`. -/
def isTrendingInWindow (h : History) (repoName startStr endStr : String) : Option Bool :=
  (getTrendingRepos h startStr endStr).map (fun l => decide (repoName ∈ l))

/-- Python's `<` on strings: lexicographic comparison of code points. -/
def listLtB : List Char → List Char → Bool
  | _, [] => false
  | [], _ :: _ => true
  | a :: as, b :: bs =>
    if a.toNat < b.toNat then true
    else if b.toNat < a.toNat then false
    else listLtB as bs

/-- Python's `s1 < s2`. -/
def strLtB (a b : String) : Bool := listLtB a.data b.data

/-- Python's `s1 <= s2` (total order: `a <= b` iff not `b < a`). -/
def strLeB (a b : String) : Bool := ! strLtB b a

/-- The binary maximum in Python's string order. -/
def strMax (a b : String) : String := if strLtB a b then b else a

/-- The largest stored key: `sorted(self.history.keys())[-1]`, i.e. the
maximum key in Python's string order. -/
def maxKey (h : History) : Option String :=
  match h.map (fun kv => kv.1) with
  | [] => none
  | k :: ks => some (ks.foldl strMax k)

/-- Model of `TrendingHistory.get_date_range`: `(None, None)` on an empty store, else
the smallest and largest keys of `sorted(self.history.keys())`. -/
def getDateRange (h : History) : Option String × Option String :=
  match h.map (fun kv => kv.1) with
  | [] => (none, none)
  | k :: ks =>
    (some (ks.foldl (fun a b => if strLtB b a then b else a) k),
     some (ks.foldl strMax k))

/-! ## Lookback Labeler (`trending_labeler.TrendingLabeler`) -/

/-- One feature row as seen by `create_labels` (only the two columns it
reads). -/
structure FeatRow where
  repo_name : String
  collection_date : String
deriving DecidableEq, Repr

/-- The loop body of `TrendingLabeler.create_labels` for one row:
`start_date = strftime(D + 1 day)`, `end_date = strftime(D + lookback days)`,
then `is_trending_in_window`.  The `strftime`/`fromisoformat` round trip on
the freshly formatted window endpoints is the identity, so the window check
runs directly on ordinals.  A malformed `collection_date` raises out of
`create_labels` (`none`). -/
def labelRow (h : History) (lookbackDays : Nat) (row : FeatRow) : Option Nat :=
  (parseDate row.collection_date).map (fun dt =>
    if row.repo_name ∈ getTrendingReposOrd h (dt.toOrdinal + 1) (dt.toOrdinal + lookbackDays)
    then 1 else 0)

/-- Model of `TrendingLabeler.create_labels`: the per-row loop, collecting the
`is_trending` column in row order; an exception on any row aborts the call. -/
def createLabels (h : History) (lookbackDays : Nat) :
    List FeatRow → Option (List (FeatRow × Nat))
  | [] => some []
  | row :: rest =>
    match labelRow h lookbackDays row, createLabels h lookbackDays rest with
    | some l, some out => some ((row, l) :: out)
    | _, _ => none

/-- Model of `TrendingLabeler.can_label_date`: format `D + lookback_days`, compare the
store's largest key against it in string order; `False` on an empty store.  A
malformed `collection_date` raises (`none`). -/
def canLabelDate (h : History) (collectionDate : String) (lookbackDays : Nat) : Option Bool :=
  (parseDate collectionDate).map (fun dt =>
    let requiredEndDate := (dt.addDays lookbackDays).format
    match maxKey h with
    | none => false
    | some mx => strLeB requiredEndDate mx)

/-! ## Event-Rate Aggregator (`gh_archive_scraper.GHArchiveScraper`) -/

/-- One GH Archive event, reduced to the two fields the aggregator reads:
`type`, and the repository name extracted by `extract_repo_name`
(`none` when no name is extractable, in which case the row is dropped
by `dropna`). -/
structure GHEvent where
  type : String
  repoName : Option String
deriving DecidableEq, Repr

/-- One row of the returned velocity table
(`repo_name, star_velocity, commit_frequency`). -/
structure VelRow where
  repo_name : String
  star_velocity : Nat
  commit_frequency : Nat
deriving DecidableEq, Repr

/-- Size of the group for repository `r` among events of type `t`
(`df[df["type"] == t].groupby("repo_name").size()` at key `r`). -/
def eventCount (events : List GHEvent) (t r : String) : Nat :=
  (events.filter (fun e => decide (e.type = t ∧ e.repoName = some r))).length

/-- The repository names appearing among events of type `t`
(the group keys of the `groupby`). -/
def reposWithEvent (events : List GHEvent) (t : String) : List String :=
  (events.filterMap (fun e => if e.type = t then e.repoName else none)).dedup

/-- Model of `extrapolation_factor = 24 / len(specific_hours)` (exact arithmetic in
place of `float`; `24 / 0` is `0` in `ℚ` where Python would raise, so calls
with an empty hour list are outside the model). -/
def extrapolationFactor (numHours : Nat) : ℚ := 24 / numHours

/-- The `if extrapolation_factor > 1:` step applied to one aggregated count.
For the non-empty hour lists in the model's domain, the comparison
`24 / len > 1` holds exactly when `len < 24` (`applyFactor_cond`), and
`(count * extrapolation_factor).astype(int)` — truncation of a non-negative
product — is the Nat division `count * 24 / len` (`applyFactor_eq_floor`);
both are stated in those exact-arithmetic terms here so that the table is
kernel-computable. -/
def applyFactor (numHours count : Nat) : Nat :=
  if numHours < 24 then count * 24 / numHours else count

/-- Model of `GHArchiveScraper.get_velocity_features_for_date`.
`fetch h` is the event list returned by `fetch_hour_data` for the concrete
`(date, hour)` bucket derived from requested hour-of-day `h` (the
`hour_indices` arithmetic); a failed or malformed fetch returns `[]`.  The
merged table has one row per repository with at least one star or push event,
outer-merged with `fillna(0)`. -/
def getVelocityFeaturesForDate (fetch : Nat → List GHEvent) (specificHours : List Nat) :
    List VelRow :=
  let allEvents := (specificHours.map fetch).flatten
  if allEvents = [] then []
  else
    let starNames := reposWithEvent allEvents "WatchEvent"
    let commitNames := reposWithEvent allEvents "PushEvent"
    let names := starNames ++ commitNames.filter (fun r => decide (r ∉ starNames))
    names.map (fun r =>
      { repo_name := r
        star_velocity := applyFactor specificHours.length (eventCount allEvents "WatchEvent" r)
        commit_frequency := applyFactor specificHours.length (eventCount allEvents "PushEvent" r) })

/-- The reading of claim C1: every row's rates are the raw sampled counts
multiplied by `24 / len(requested_hours)` and truncated, for every non-empty
hour list. -/
def velocityClaimHolds (fetch : Nat → List GHEvent) (specificHours : List Nat) : Prop :=
  ∀ row ∈ getVelocityFeaturesForDate fetch specificHours,
    row.star_velocity =
      (Int.floor (((eventCount ((specificHours.map fetch).flatten) "WatchEvent" row.repo_name : ℚ)) *
        extrapolationFactor specificHours.length)).toNat ∧
    row.commit_frequency =
      (Int.floor (((eventCount ((specificHours.map fetch).flatten) "PushEvent" row.repo_name : ℚ)) *
        extrapolationFactor specificHours.length)).toNat

/-- Concrete fetch oracle for refuting claim C1 as stated: every sampled
bucket contains one star event for `x/y`. -/
def fetchOneStar : Nat → List GHEvent := fun _ => [⟨"WatchEvent", some "x/y"⟩]

/-- Concrete fetch oracle for the spec's extrapolation example: hour 12 has
three star events for `X`, hour 23 has one. -/
def fetchSpecExample : Nat → List GHEvent := fun h =>
  if h = 12 then
    [⟨"WatchEvent", some "X"⟩, ⟨"WatchEvent", some "X"⟩, ⟨"WatchEvent", some "X"⟩]
  else if h = 23 then [⟨"WatchEvent", some "X"⟩]
  else []

/-! ## Multi-Source Feature Merger (`feature_enricher.FeatureEnricher`) -/

/-- The payload of `GitHubAPIClient.get_repo_details`, reduced to the keys
`enrich_repo` reads.  `repo_name = none` models a falsy `repo_name`
(absent/`None`/empty); `language = none` models `gh_data.get("language")`
being falsy, which `or "Unknown"` replaces. -/
structure GhData where
  repo_name : Option String
  stars_total : Nat
  forks_total : Nat
  language : Option String
  created_at : Option String
deriving Repr

/-- One row of the cached Hacker News mention table. -/
structure HNRow where
  repo_name : String
  hn_buzz_score : ℚ
deriving Repr

/-- The three external sources consulted by `enrich_repo`, as oracle values:
`Except.error` is an exception raised by the source, caught by the
corresponding `try`/`except` block. -/
structure EnrichSources where
  metadata : Except Unit (Option GhData)
  archive : Except Unit (List VelRow)
  hn : Except Unit (List HNRow)

/-- The produced feature record (the `result` dict of `enrich_repo`;
`created_at` is the extra key added only when the metadata source
succeeded). -/
structure FeatureRecord where
  repo_name : String
  collection_date : String
  stars_total : Nat
  forks_total : Nat
  star_velocity : Nat
  commit_frequency : Nat
  hn_buzz_score : ℚ
  language : String
  days_old : Nat
  fork_rate : ℚ
  popularity_score : ℚ
  stars_per_day : ℚ
  created_at : Option String
deriving DecidableEq, Repr

/-- Step 1 of `enrich_repo`: the `(stars_total, forks_total, language,
created_at)` quadruple after the GitHub API block.  Defaults
`(0, 0, "Unknown", absent)` on exception, falsy payload, or falsy
`repo_name`. -/
def metadataFields : Except Unit (Option GhData) → Nat × Nat × String × Option String
  | .error _ => (0, 0, "Unknown", none)
  | .ok none => (0, 0, "Unknown", none)
  | .ok (some g) =>
    if g.repo_name = none then (0, 0, "Unknown", none)
    else (g.stars_total, g.forks_total, g.language.getD "Unknown", g.created_at)

/-- Step 2 of `enrich_repo`: `(star_velocity, commit_frequency)` from the
archive table — the first row matching `repo_name` (`repo_archive.iloc[0]`),
zeros when the table is empty, has no matching row, or the fetch raised. -/
def archiveFields (repoName : String) : Except Unit (List VelRow) → Nat × Nat
  | .error _ => (0, 0)
  | .ok rows =>
    match rows.find? (fun row => row.repo_name == repoName) with
    | none => (0, 0)
    | some row => (row.star_velocity, row.commit_frequency)

/-- Step 3 of `enrich_repo`: `hn_buzz_score` from the mention table, `0` when
absent or the fetch raised. -/
def hnField (repoName : String) : Except Unit (List HNRow) → ℚ
  | .error _ => 0
  | .ok rows =>
    match rows.find? (fun row => row.repo_name == repoName) with
    | none => 0
    | some row => row.hn_buzz_score

/-- Model of `FeatureEnricher._compute_days_old(created_at, current_date)`.
`parseTS` is `datetime.fromisoformat(created_at.replace("Z", "+00:00"))`
as an oracle giving the POSIX timestamp in seconds (`none` = `ValueError`);
`currentSec` is `current_date`'s timestamp.  `timedelta.days` floors the
difference toward minus infinity (`Int.fdiv`); the result is clamped with
`max(days, 0)`. -/
def computeDaysOld (parseTS : String → Option Int) (createdAt : Option String)
    (currentSec : Int) : Nat :=
  match createdAt with
  | none => 0
  | some s =>
    match parseTS s with
    | none => 0
    | some createdSec => (max ((currentSec - createdSec).fdiv 86400) 0).toNat

/-- Model of `FeatureEnricher.enrich_repo(repo_name, date)`.  Here `dateStr` is
`date.strftime("%Y-%m-%d")` and `currentSec` is `date`'s timestamp.  The
`0.5/0.3/0.2` weights and the two guarded divisions are exact rationals in
place of floats. -/
def enrichRepo (parseTS : String → Option Int) (src : EnrichSources)
    (repoName dateStr : String) (currentSec : Int) : FeatureRecord :=
  let md := metadataFields src.metadata
  let stars := md.1
  let forks := md.2.1
  let lang := md.2.2.1
  let createdAt := md.2.2.2
  let ar := archiveFields repoName src.archive
  let buzz := hnField repoName src.hn
  let daysOld := computeDaysOld parseTS createdAt currentSec
  { repo_name := repoName
    collection_date := dateStr
    stars_total := stars
    forks_total := forks
    star_velocity := ar.1
    commit_frequency := ar.2
    hn_buzz_score := buzz
    language := lang
    days_old := daysOld
    fork_rate := (forks : ℚ) / ((max stars 1 : Nat) : ℚ)
    popularity_score := (ar.1 : ℚ) * (1 / 2) + (stars : ℚ) * (3 / 10) + (forks : ℚ) * (1 / 5)
    stars_per_day := (stars : ℚ) / ((max daysOld 1 : Nat) : ℚ)
    created_at := createdAt }

/-- Model of `FeatureEnricher.enrich_batch(repo_names, date, ...)`.
The archive and HN sources are fetched once; a fetch exception (or a skip
toggle) leaves an empty cache, so workers always see an `ok` cache.
`metaOf r` is the per-repository GitHub API call.  `fault r = true` models
the worker task for `r` raising or timing out in `future.result` (the
`except` branch of the collection loop); such a repository is only counted.
`as_completed` returns results in a nondeterministic order; the result list
here is in submission order and is read up to multiset membership.
Returns `(results, failed_count)`. -/
def enrichBatch (parseTS : String → Option Int)
    (metaOf : String → Except Unit (Option GhData))
    (archiveFetch : Except Unit (List VelRow)) (hnFetch : Except Unit (List HNRow))
    (skipArchive skipHN : Bool) (fault : String → Bool)
    (repoNames : List String) (dateStr : String) (currentSec : Int) :
    List FeatureRecord × Nat :=
  let archiveCache : List VelRow :=
    if skipArchive then [] else match archiveFetch with | .ok t => t | .error _ => []
  let hnCache : List HNRow :=
    if skipHN then [] else match hnFetch with | .ok t => t | .error _ => []
  ((repoNames.filter (fun r => ! fault r)).map
      (fun r => enrichRepo parseTS ⟨metaOf r, .ok archiveCache, .ok hnCache⟩ r dateStr currentSec),
    (repoNames.filter (fun r => fault r)).length)

/-- Predicate for the metadata source failing or returning empty: the call raised,
returned a falsy payload, or returned a payload with a falsy `repo_name` —
the three branches of `enrich_repo` that keep the defaults. -/
def MetadataFailedOrEmpty : Except Unit (Option GhData) → Prop
  | .error _ => True
  | .ok none => True
  | .ok (some g) => g.repo_name = none

/-- The date-window membership test applied to a stored key. -/
def KeyInWindow (key : String) (startOrd endOrd : Nat) : Prop :=
  ∃ dt, parseDate key = some dt ∧ startOrd ≤ dt.toOrdinal ∧ dt.toOrdinal ≤ endOrd

instance (key : String) (s e : Nat) : Decidable (KeyInWindow key s e) := by
  unfold KeyInWindow
  cases parseDate key
  · exact .isFalse (by simp)
  · rename_i dt
    exact decidable_of_iff (s ≤ dt.toOrdinal ∧ dt.toOrdinal ≤ e) (by simp)

/-! ## Helper lemmas -/

theorem listLtB_irrefl : ∀ l : List Char, listLtB l l = false := by
  intro l
  induction l with
  | nil => rfl
  | cons a as ih => simp [listLtB, ih]

theorem listLtB_asymm : ∀ a b : List Char, listLtB a b = true → listLtB b a = false := by
  intro a
  induction a with
  | nil =>
    intro b hb
    cases b with
    | nil => simp [listLtB] at hb
    | cons c cs => rfl
  | cons x xs ih =>
    intro b hb
    cases b with
    | nil => simp [listLtB] at hb
    | cons y ys =>
      simp only [listLtB] at hb ⊢
      split_ifs at hb ⊢ with h1 h2 h3 <;> try omega
      · rfl
      · exact ih ys hb

theorem listLeB_trans : ∀ (a b c : List Char), listLtB b a = false → listLtB c b = false →
    listLtB c a = false := by
  intro a
  induction a with
  | nil =>
    intro b c _ _
    cases c <;> rfl
  | cons x xs ih =>
    intro b c h1 h2
    cases b with
    | nil => simp [listLtB] at h1
    | cons y ys =>
      cases c with
      | nil => simp [listLtB] at h2
      | cons z zs =>
        simp only [listLtB] at h1 h2 ⊢
        by_cases hyx : y.toNat < x.toNat
        · simp [hyx] at h1
        · by_cases hzy : z.toNat < y.toNat
          · simp [hzy] at h2
          · have hzx : ¬ z.toNat < x.toNat := by omega
            simp only [hzx, if_false]
            by_cases hxz : x.toNat < z.toNat
            · simp [hxz]
            · have hxy : ¬ x.toNat < y.toNat := by omega
              have hyz : ¬ y.toNat < z.toNat := by omega
              simp only [hyx, hxy, if_false] at h1
              simp only [hzy, hyz, if_false] at h2
              simp only [hxz, if_false]
              exact ih ys zs h1 h2

theorem strLeB_refl (a : String) : strLeB a a = true := by
  simp [strLeB, strLtB, listLtB_irrefl]

theorem strLtB_le (a b : String) : strLtB a b = true → strLeB a b = true := by
  intro h
  simp [strLeB, strLtB, listLtB_asymm _ _ h]

theorem strLeB_of_not_lt (a b : String) : strLtB b a = false → strLeB a b = true := by
  intro h
  simp [strLeB, h]

theorem strLeB_trans (a b c : String) : strLeB a b = true → strLeB b c = true →
    strLeB a c = true := by
  intro h1 h2
  simp only [strLeB, strLtB, Bool.not_eq_true', Bool.not_eq_eq_eq_not, Bool.not_true] at h1 h2 ⊢
  exact listLeB_trans a.data b.data c.data h1 h2

theorem foldMax_mem (ks : List String) : ∀ k : String, ks.foldl strMax k ∈ k :: ks := by
  induction ks with
  | nil => intro k; simp
  | cons b bs ih =>
    intro k
    have h := ih (strMax k b)
    have hm : strMax k b = b ∨ strMax k b = k := by
      unfold strMax; split_ifs <;> simp
    simp only [List.foldl_cons]
    rcases List.mem_cons.1 h with h' | h'
    · rcases hm with h'' | h'' <;> rw [h', h''] <;> simp
    · exact List.mem_cons.2 (Or.inr (List.mem_cons.2 (Or.inr h')))

theorem foldMax_le (ks : List String) :
    ∀ k : String, ∀ x ∈ k :: ks, strLeB x (ks.foldl strMax k) = true := by
  induction ks with
  | nil =>
    intro k x hx
    rcases List.mem_cons.1 hx with rfl | h
    · simpa using strLeB_refl x
    · simp at h
  | cons b bs ih =>
    intro k x hx
    have hk : strLeB k (strMax k b) = true := by
      unfold strMax
      split_ifs with h
      · exact strLtB_le _ _ h
      · exact strLeB_refl k
    have hb : strLeB b (strMax k b) = true := by
      unfold strMax
      split_ifs with h
      · exact strLeB_refl b
      · exact strLeB_of_not_lt _ _ (Bool.not_eq_true _ ▸ h)
    have hhead : strLeB (strMax k b) (bs.foldl strMax (strMax k b)) = true :=
      ih (strMax k b) (strMax k b) (List.mem_cons_self _ _)
    simp only [List.foldl_cons]
    rcases List.mem_cons.1 hx with rfl | hx'
    · exact strLeB_trans _ _ _ hk hhead
    · rcases List.mem_cons.1 hx' with rfl | hx''
      · exact strLeB_trans _ _ _ hb hhead
      · exact ih (strMax k b) x (List.mem_cons.2 (Or.inr hx''))

theorem maxKey_eq_none_iff (h : History) : maxKey h = none ↔ h = [] := by
  unfold maxKey
  cases h <;> simp

theorem maxKey_mem (h : History) (mx : String) (hm : maxKey h = some mx) :
    mx ∈ h.map (fun kv => kv.1) := by
  unfold maxKey at hm
  cases hk : h.map (fun kv => kv.1) with
  | nil => rw [hk] at hm; simp at hm
  | cons k ks =>
    rw [hk] at hm
    simp only [Option.some.injEq] at hm
    exact hm ▸ foldMax_mem ks k

theorem maxKey_isMax (h : History) (mx : String) (hm : maxKey h = some mx) :
    ∀ k ∈ h.map (fun kv => kv.1), strLeB k mx = true := by
  unfold maxKey at hm
  cases hk : h.map (fun kv => kv.1) with
  | nil => rw [hk] at hm; simp at hm
  | cons k ks =>
    rw [hk] at hm
    simp only [Option.some.injEq] at hm
    exact hm ▸ foldMax_le ks k

theorem mem_getTrendingReposOrd (h : History) (s e : Nat) (x : String) :
    x ∈ getTrendingReposOrd h s e ↔
      ∃ kv ∈ h, KeyInWindow kv.1 s e ∧ x ∈ kv.2 := by
  have aux : ∀ (l : History) (acc : List String),
      (x ∈ l.foldl (trendStep s e) acc) ↔
      x ∈ acc ∨ ∃ kv ∈ l, KeyInWindow kv.1 s e ∧ x ∈ kv.2 := by
    intro l
    induction l with
    | nil => simp
    | cons kv t ih =>
      intro acc
      simp only [List.foldl_cons]
      rcases hp : parseDate kv.1 with _ | dt
      · have hstep : trendStep s e acc kv = acc := by simp [trendStep, hp]
        rw [hstep, ih acc]
        constructor
        · rintro (hx | ⟨kw, hkw, hw, hxw⟩)
          · exact Or.inl hx
          · exact Or.inr ⟨kw, List.mem_cons.2 (Or.inr hkw), hw, hxw⟩
        · rintro (hx | ⟨kw, hkw, hw, hxw⟩)
          · exact Or.inl hx
          · rcases List.mem_cons.1 hkw with rfl | hkw2
            · rcases hw with ⟨dt, hdt, _⟩
              rw [hp] at hdt
              cases hdt
            · exact Or.inr ⟨kw, hkw2, hw, hxw⟩
      · by_cases hr : s ≤ dt.toOrdinal ∧ dt.toOrdinal ≤ e
        · have hstep : trendStep s e acc kv = acc ++ kv.2 := by
            simp [trendStep, hp, hr]
          rw [hstep, ih (acc ++ kv.2)]
          simp only [List.mem_append]
          constructor
          · rintro ((hx | hx) | ⟨kw, hkw, hw, hxw⟩)
            · exact Or.inl hx
            · exact Or.inr ⟨kv, List.mem_cons_self _ _, ⟨dt, hp, hr⟩, hx⟩
            · exact Or.inr ⟨kw, List.mem_cons.2 (Or.inr hkw), hw, hxw⟩
          · rintro (hx | ⟨kw, hkw, hw, hxw⟩)
            · exact Or.inl (Or.inl hx)
            · rcases List.mem_cons.1 hkw with rfl | hkw2
              · exact Or.inl (Or.inr hxw)
              · exact Or.inr ⟨kw, hkw2, hw, hxw⟩
        · have hstep : trendStep s e acc kv = acc := by
            simp only [trendStep, hp, if_neg hr]
          rw [hstep, ih acc]
          constructor
          · rintro (hx | ⟨kw, hkw, hw, hxw⟩)
            · exact Or.inl hx
            · exact Or.inr ⟨kw, List.mem_cons.2 (Or.inr hkw), hw, hxw⟩
          · rintro (hx | ⟨kw, hkw, hw, hxw⟩)
            · exact Or.inl hx
            · rcases List.mem_cons.1 hkw with rfl | hkw2
              · rcases hw with ⟨dtk, hdtk, hrk⟩
                rw [hp] at hdtk
                cases hdtk
                exact absurd hrk hr
              · exact Or.inr ⟨kw, hkw2, hw, hxw⟩
  rw [getTrendingReposOrd, aux h []]
  simp

/-- After `add_trending_list`, the date's key is present. -/
theorem addTrendingList_any (h : History) (d : String) (rs : List String) :
    (addTrendingList h d rs).any (fun kv => kv.1 = d) = true := by
  unfold addTrendingList
  by_cases hmem : h.any (fun kv => kv.1 = d) = true
  · rw [if_pos hmem]
    rw [List.any_eq_true] at hmem
    rcases hmem with ⟨kv, hkv, hd⟩
    rw [List.any_eq_true]
    refine ⟨(d, rs), List.mem_map.2 ⟨kv, hkv, ?_⟩, by simp⟩
    simp only [decide_eq_true_eq] at hd
    simp [hd]
  · simp [hmem]

theorem addTrendingList_twice (h : History) (d : String) (rs : List String) :
    addTrendingList (addTrendingList h d rs) d rs = addTrendingList h d rs := by
  rw [addTrendingList, if_pos (addTrendingList_any h d rs)]
  unfold addTrendingList
  by_cases hmem : h.any (fun kv => kv.1 = d) = true
  · rw [if_pos hmem, List.map_map]
    apply List.map_congr_left
    intro kv _
    by_cases hd : kv.1 = d <;> simp [Function.comp_apply, hd]
  · rw [if_neg hmem, List.map_append]
    have h1 : h.map (fun kv => if kv.1 = d then (d, rs) else kv) = h := by
      have hall : ∀ kv ∈ h, (if kv.1 = d then (d, rs) else kv) = id kv := by
        intro kv hkv
        have hne : ¬ kv.1 = d := by
          intro hcon
          exact hmem (List.any_eq_true.2 ⟨kv, hkv, by simp [hcon]⟩)
        simp [hne]
      rw [List.map_congr_left hall, List.map_id]
    rw [h1]
    simp

theorem histLookup_addTrendingList (h : History) (d : String) (rs : List String) :
    histLookup (addTrendingList h d rs) d = some rs := by
  induction h with
  | nil => simp [addTrendingList, histLookup]
  | cons kv t ih =>
    by_cases hd : kv.1 = d
    · have hany : (kv :: t).any (fun kv => kv.1 = d) = true := by
        simp [List.any_cons, hd]
      rw [addTrendingList, if_pos hany]
      simp only [List.map_cons, if_pos hd]
      simp [histLookup, List.find?_cons]
    · rw [addTrendingList]
      by_cases hany : (kv :: t).any (fun kv => kv.1 = d) = true
      · have htany : t.any (fun kv => kv.1 = d) = true := by
          simp only [List.any_cons, Bool.or_eq_true, decide_eq_true_eq] at hany
          rcases hany with h' | h'
          · exact absurd h' hd
          · exact h'
        rw [if_pos hany]
        simp only [List.map_cons, if_neg hd]
        rw [histLookup, List.find?_cons_of_neg _ (by simpa using hd)]
        rw [addTrendingList, if_pos htany] at ih
        exact ih
      · have htany : ¬ t.any (fun kv => kv.1 = d) = true := by
          simp only [List.any_cons, Bool.or_eq_true, decide_eq_true_eq] at hany
          tauto
        rw [if_neg hany]
        rw [List.cons_append, histLookup, List.find?_cons_of_neg _ (by simpa using hd)]
        rw [addTrendingList, if_neg htany] at ih
        exact ih

/-! ## Claims C3, C4, C5 -/

/-- C3: `add_trending_list` makes the stored list for a date exactly the given
list — re-recording the same date and list is idempotent (the store, hence
every `members_in_range` result, is unchanged); recording a different list for
an already-present date replaces the old list, never unions; and recording
`["a/b","c/d"]` for `2024-12-01` on a fresh store makes
`members_in_range("2024-12-01","2024-12-01")` return exactly that set. -/
theorem record_replaces_and_roundtrips (h : History) (d : String) (rs rs2 : List String) :
    addTrendingList (addTrendingList h d rs) d rs = addTrendingList h d rs ∧
    (∀ s e : String,
      getTrendingRepos (addTrendingList (addTrendingList h d rs) d rs) s e =
        getTrendingRepos (addTrendingList h d rs) s e) ∧
    histLookup (addTrendingList (addTrendingList h d rs) d rs2) d = some rs2 ∧
    (∃ out, getTrendingRepos (addTrendingList [] "2024-12-01" ["a/b", "c/d"])
        "2024-12-01" "2024-12-01" = some out ∧
      ∀ x, x ∈ out ↔ (x = "a/b" ∨ x = "c/d")) := by
  refine ⟨addTrendingList_twice h d rs, ?_, histLookup_addTrendingList _ d rs2, ?_⟩
  · intro s e
    rw [addTrendingList_twice h d rs]
  · exact ⟨["a/b", "c/d"], by decide, fun x => by simp⟩

/-- C3 witness: the conclusion instantiated at a concrete store. -/
theorem record_replaces_and_roundtrips_witness :
    histLookup
      (addTrendingList
        (addTrendingList [("2024-12-02", ["m/n"])] "2024-12-01" ["a/b"])
        "2024-12-01" ["c/d"])
      "2024-12-01" = some ["c/d"] :=
  (record_replaces_and_roundtrips [("2024-12-02", ["m/n"])] "2024-12-01"
    ["a/b"] ["c/d"]).2.2.1

/-- C4: with well-formed endpoints, `get_trending_repos` succeeds and returns
exactly the union of the per-date lists whose key parses to a calendar date in
the inclusive range `[start_date, end_date]`; stored keys that do not parse are
skipped rather than failing the call. -/
theorem members_in_range_spec (h : History) (sStr eStr : String) (sdt edt : Date)
    (hs : parseDate sStr = some sdt) (he : parseDate eStr = some edt) :
    ∃ out, getTrendingRepos h sStr eStr = some out ∧
      ∀ x, (x ∈ out ↔ ∃ kv ∈ h,
        (∃ dt, parseDate kv.1 = some dt ∧
          sdt.toOrdinal ≤ dt.toOrdinal ∧ dt.toOrdinal ≤ edt.toOrdinal) ∧ x ∈ kv.2) := by
  refine ⟨getTrendingReposOrd h sdt.toOrdinal edt.toOrdinal, ?_, ?_⟩
  · unfold getTrendingRepos
    rw [hs, he]
  · intro x
    simpa [KeyInWindow] using mem_getTrendingReposOrd h sdt.toOrdinal edt.toOrdinal x

/-- C4 witness: a store holding one in-range key, one out-of-range key and one
malformed key, queried over `[2024-12-01, 2024-12-05]`. -/
theorem members_in_range_spec_witness :
    ∃ out,
      getTrendingRepos
        [("2024-12-03", ["x/y"]), ("2024-12-08", ["p/q"]), ("not-a-date", ["zz"])]
        "2024-12-01" "2024-12-05" = some out ∧
      ∀ x, (x ∈ out ↔ ∃ kv ∈
          ([("2024-12-03", ["x/y"]), ("2024-12-08", ["p/q"]), ("not-a-date", ["zz"])] : History),
        (∃ dt, parseDate kv.1 = some dt ∧
          (Date.mk 2024 12 1).toOrdinal ≤ dt.toOrdinal ∧
          dt.toOrdinal ≤ (Date.mk 2024 12 5).toOrdinal) ∧ x ∈ kv.2) :=
  members_in_range_spec _ "2024-12-01" "2024-12-05" ⟨2024, 12, 1⟩ ⟨2024, 12, 5⟩
    (by decide) (by decide)

/-- C5: `can_label_date(D, lookback_days)` returns true iff the store has a
largest key (in Python string order, i.e. it is non-empty) and that key is
`≥` the formatted `D + lookback_days`. -/
theorem can_label_date_iff (h : History) (cStr : String) (L : Nat) (dt : Date) (b : Bool)
    (hp : parseDate cStr = some dt) (hc : canLabelDate h cStr L = some b) :
    b = true ↔
      ∃ mx ∈ h.map (fun kv => kv.1),
        (∀ k ∈ h.map (fun kv => kv.1), strLeB k mx = true) ∧
        strLeB ((dt.addDays L).format) mx = true := by
  unfold canLabelDate at hc
  rw [hp] at hc
  simp only [Option.map_some', Option.some.injEq] at hc
  subst hc
  cases hmx : maxKey h with
  | none =>
    simp only [hmx]
    constructor
    · intro hfalse
      cases hfalse
    · rintro ⟨mx, hmem, -, -⟩
      rw [maxKey_eq_none_iff] at hmx
      subst hmx
      simp at hmem
  | some mx =>
    simp only [hmx]
    constructor
    · intro htrue
      exact ⟨mx, maxKey_mem h mx hmx, maxKey_isMax h mx hmx, htrue⟩
    · rintro ⟨mx2, hmem2, -, hreq2⟩
      exact strLeB_trans _ _ _ hreq2 (maxKey_isMax h mx hmx mx2 hmem2)

/-- C5 witness: the spec's example — latest key `2024-12-07` cannot label
`2024-12-01` with a 7-day lookback; a `2024-12-08` entry can. -/
theorem can_label_date_iff_witness :
    ((false : Bool) = true ↔
      ∃ mx ∈ ([("2024-12-01", ["a/b"]), ("2024-12-07", ["e/f"])] : History).map
          (fun kv => kv.1),
        (∀ k ∈ ([("2024-12-01", ["a/b"]), ("2024-12-07", ["e/f"])] : History).map
            (fun kv => kv.1), strLeB k mx = true) ∧
        strLeB (((Date.mk 2024 12 1).addDays 7).format) mx = true) ∧
    ((true : Bool) = true ↔
      ∃ mx ∈ ([("2024-12-01", ["a/b"]), ("2024-12-07", ["e/f"]),
          ("2024-12-08", ["g/h"])] : History).map (fun kv => kv.1),
        (∀ k ∈ ([("2024-12-01", ["a/b"]), ("2024-12-07", ["e/f"]),
            ("2024-12-08", ["g/h"])] : History).map (fun kv => kv.1),
          strLeB k mx = true) ∧
        strLeB (((Date.mk 2024 12 1).addDays 7).format) mx = true) :=
  ⟨can_label_date_iff _ "2024-12-01" 7 ⟨2024, 12, 1⟩ false (by decide) (by decide),
   can_label_date_iff _ "2024-12-01" 7 ⟨2024, 12, 1⟩ true (by decide) (by decide)⟩

/-! ## Claim C2 -/

theorem createLabels_get (h : History) (L : Nat) :
    ∀ (rows : List FeatRow) (out : List (FeatRow × Nat)),
      createLabels h L rows = some out →
      out.length = rows.length ∧
      ∀ i (hi : i < rows.length) (ho : i < out.length),
        (out[i].1 = rows[i] ∧ labelRow h L rows[i] = some out[i].2) := by
  intro rows
  induction rows with
  | nil =>
    intro out hout
    simp only [createLabels, Option.some.injEq] at hout
    subst hout
    exact ⟨rfl, fun i hi _ => absurd hi (by simp)⟩
  | cons r t ih =>
    intro out hout
    rw [createLabels] at hout
    rcases hl : labelRow h L r with _ | l <;> rw [hl] at hout
    · cases hout
    · rcases hrest : createLabels h L t with _ | out2 <;> rw [hrest] at hout
      · cases hout
      · simp only [Option.some.injEq] at hout
        subst hout
        obtain ⟨hlen, hget⟩ := ih out2 hrest
        refine ⟨by simp [hlen], ?_⟩
        intro i hi ho
        cases i with
        | zero => exact ⟨rfl, by simpa using hl⟩
        | succ n =>
          have hn : n < t.length := by simpa using hi
          have hon : n < out2.length := by simpa using ho
          simpa using hget n hn hon

/-- C2: `create_labels` labels row `i` (repo `R`, collection date `D`) with
`is_trending = 1` iff `R` appears in the stored list of some history key whose
date lies in the inclusive window `[D+1, D+lookback_days]`, and with `0`
otherwise. -/
theorem create_labels_window (h : History) (L : Nat) (rows : List FeatRow)
    (out : List (FeatRow × Nat)) (hout : createLabels h L rows = some out)
    (i : Nat) (hi : i < rows.length) (dt : Date)
    (hd : parseDate (rows[i].collection_date) = some dt) :
    ∃ (ho : i < out.length),
      out[i].1 = rows[i] ∧
      (out[i].2 = 1 ↔ ∃ kv ∈ h,
        (∃ kdt, parseDate kv.1 = some kdt ∧
          dt.toOrdinal + 1 ≤ kdt.toOrdinal ∧ kdt.toOrdinal ≤ dt.toOrdinal + L) ∧
        rows[i].repo_name ∈ kv.2) ∧
      (out[i].2 = 0 ↔ ¬ ∃ kv ∈ h,
        (∃ kdt, parseDate kv.1 = some kdt ∧
          dt.toOrdinal + 1 ≤ kdt.toOrdinal ∧ kdt.toOrdinal ≤ dt.toOrdinal + L) ∧
        rows[i].repo_name ∈ kv.2) := by
  obtain ⟨hlen, hget⟩ := createLabels_get h L rows out hout
  have ho : i < out.length := by omega
  obtain ⟨hfst, hlab⟩ := hget i hi ho
  rw [labelRow, hd] at hlab
  simp only [Option.map_some', Option.some.injEq] at hlab
  have hiff : rows[i].repo_name ∈
      getTrendingReposOrd h (dt.toOrdinal + 1) (dt.toOrdinal + L) ↔
      ∃ kv ∈ h,
        (∃ kdt, parseDate kv.1 = some kdt ∧
          dt.toOrdinal + 1 ≤ kdt.toOrdinal ∧ kdt.toOrdinal ≤ dt.toOrdinal + L) ∧
        rows[i].repo_name ∈ kv.2 := by
    simpa [KeyInWindow] using
      mem_getTrendingReposOrd h (dt.toOrdinal + 1) (dt.toOrdinal + L) rows[i].repo_name
  refine ⟨ho, hfst, ?_, ?_⟩
  · by_cases hmem : rows[i].repo_name ∈
        getTrendingReposOrd h (dt.toOrdinal + 1) (dt.toOrdinal + L)
    · rw [if_pos hmem] at hlab
      simp only [← hlab, ← hiff]
      simp [hmem]
    · rw [if_neg hmem] at hlab
      simp only [← hlab, ← hiff]
      simp [hmem]
  · by_cases hmem : rows[i].repo_name ∈
        getTrendingReposOrd h (dt.toOrdinal + 1) (dt.toOrdinal + L)
    · rw [if_pos hmem] at hlab
      simp only [← hlab, ← hiff]
      simp [hmem]
    · rw [if_neg hmem] at hlab
      simp only [← hlab, ← hiff]
      simp [hmem]

/-- C2 witness: the spec's labeling example — history `{2024-12-03: [x/y]}`,
lookback 7, labels `(x/y, 2024-11-30)` with 1 and `(x/y, 2024-12-05)`
with 0. -/
theorem create_labels_window_witness :
    (∃ ho : (0 : Nat) <
        ([(⟨"x/y", "2024-11-30"⟩, 1), (⟨"x/y", "2024-12-05"⟩, 0)] :
          List (FeatRow × Nat)).length,
      ([(⟨"x/y", "2024-11-30"⟩, 1), (⟨"x/y", "2024-12-05"⟩, 0)] :
          List (FeatRow × Nat))[0].1 =
        ([⟨"x/y", "2024-11-30"⟩, ⟨"x/y", "2024-12-05"⟩] : List FeatRow)[0] ∧
      (([(⟨"x/y", "2024-11-30"⟩, 1), (⟨"x/y", "2024-12-05"⟩, 0)] :
          List (FeatRow × Nat))[0].2 = 1 ↔ ∃ kv ∈ ([("2024-12-03", ["x/y"])] : History),
        (∃ kdt, parseDate kv.1 = some kdt ∧
          (Date.mk 2024 11 30).toOrdinal + 1 ≤ kdt.toOrdinal ∧
          kdt.toOrdinal ≤ (Date.mk 2024 11 30).toOrdinal + 7) ∧
        ([⟨"x/y", "2024-11-30"⟩, ⟨"x/y", "2024-12-05"⟩] : List FeatRow)[0].repo_name ∈ kv.2) ∧
      (([(⟨"x/y", "2024-11-30"⟩, 1), (⟨"x/y", "2024-12-05"⟩, 0)] :
          List (FeatRow × Nat))[0].2 = 0 ↔ ¬ ∃ kv ∈ ([("2024-12-03", ["x/y"])] : History),
        (∃ kdt, parseDate kv.1 = some kdt ∧
          (Date.mk 2024 11 30).toOrdinal + 1 ≤ kdt.toOrdinal ∧
          kdt.toOrdinal ≤ (Date.mk 2024 11 30).toOrdinal + 7) ∧
        ([⟨"x/y", "2024-11-30"⟩, ⟨"x/y", "2024-12-05"⟩] : List FeatRow)[0].repo_name ∈ kv.2)) ∧
    (∃ ho : (1 : Nat) <
        ([(⟨"x/y", "2024-11-30"⟩, 1), (⟨"x/y", "2024-12-05"⟩, 0)] :
          List (FeatRow × Nat)).length,
      ([(⟨"x/y", "2024-11-30"⟩, 1), (⟨"x/y", "2024-12-05"⟩, 0)] :
          List (FeatRow × Nat))[1].1 =
        ([⟨"x/y", "2024-11-30"⟩, ⟨"x/y", "2024-12-05"⟩] : List FeatRow)[1] ∧
      (([(⟨"x/y", "2024-11-30"⟩, 1), (⟨"x/y", "2024-12-05"⟩, 0)] :
          List (FeatRow × Nat))[1].2 = 1 ↔ ∃ kv ∈ ([("2024-12-03", ["x/y"])] : History),
        (∃ kdt, parseDate kv.1 = some kdt ∧
          (Date.mk 2024 12 5).toOrdinal + 1 ≤ kdt.toOrdinal ∧
          kdt.toOrdinal ≤ (Date.mk 2024 12 5).toOrdinal + 7) ∧
        ([⟨"x/y", "2024-11-30"⟩, ⟨"x/y", "2024-12-05"⟩] : List FeatRow)[1].repo_name ∈ kv.2) ∧
      (([(⟨"x/y", "2024-11-30"⟩, 1), (⟨"x/y", "2024-12-05"⟩, 0)] :
          List (FeatRow × Nat))[1].2 = 0 ↔ ¬ ∃ kv ∈ ([("2024-12-03", ["x/y"])] : History),
        (∃ kdt, parseDate kv.1 = some kdt ∧
          (Date.mk 2024 12 5).toOrdinal + 1 ≤ kdt.toOrdinal ∧
          kdt.toOrdinal ≤ (Date.mk 2024 12 5).toOrdinal + 7) ∧
        ([⟨"x/y", "2024-11-30"⟩, ⟨"x/y", "2024-12-05"⟩] : List FeatRow)[1].repo_name ∈ kv.2)) :=
  ⟨create_labels_window [("2024-12-03", ["x/y"])] 7
      [⟨"x/y", "2024-11-30"⟩, ⟨"x/y", "2024-12-05"⟩]
      [(⟨"x/y", "2024-11-30"⟩, 1), (⟨"x/y", "2024-12-05"⟩, 0)]
      (by decide) 0 (by decide) ⟨2024, 11, 30⟩ (by decide),
   create_labels_window [("2024-12-03", ["x/y"])] 7
      [⟨"x/y", "2024-11-30"⟩, ⟨"x/y", "2024-12-05"⟩]
      [(⟨"x/y", "2024-11-30"⟩, 1), (⟨"x/y", "2024-12-05"⟩, 0)]
      (by decide) 1 (by decide) ⟨2024, 12, 5⟩ (by decide)⟩

/-! ## Claim C1 -/

theorem extrapolationFactor_gt_one (n : Nat) :
    (1 < extrapolationFactor n) ↔ (0 < n ∧ n < 24) := by
  unfold extrapolationFactor
  rcases Nat.eq_zero_or_pos n with rfl | hn
  · simp
  · rw [one_lt_div (by exact_mod_cast hn)]
    constructor
    · intro h
      exact ⟨hn, by exact_mod_cast h⟩
    · rintro ⟨-, h⟩
      exact_mod_cast h

/-- Truncating the exactly-represented product `count * (24 / len)` is the
Nat division `count * 24 / len`. -/
theorem applyFactor_eq_floor (n c : Nat) :
    (Int.floor ((c : ℚ) * extrapolationFactor n)).toNat = c * 24 / n := by
  have h : (c : ℚ) * extrapolationFactor n = ((c * 24 : Nat) : ℚ) / ((n : Nat) : ℚ) := by
    unfold extrapolationFactor
    push_cast
    ring
  rw [h, Int.floor_toNat, Nat.floor_div_eq_div]

/-- C1 counterexample: request 25 hours (hour 0 repeated 25 times), each
sampled bucket holding one star event for `x/y`.  The raw summed count is 25,
so the claim's formula gives `int(25 * 24/25) = 24`, but the code skips
extrapolation whenever the factor is not `> 1` and returns the raw 25. -/
theorem velocity_claim_counterexample :
    ¬ velocityClaimHolds fetchOneStar (List.replicate 25 0) := by
  intro hclaim
  have hrow : (⟨"x/y", 25, 0⟩ : VelRow) ∈
      getVelocityFeaturesForDate fetchOneStar (List.replicate 25 0) := by decide
  obtain ⟨h1, -⟩ := hclaim _ hrow
  have hc : eventCount ((List.replicate 25 0).map fetchOneStar).flatten "WatchEvent"
      (VelRow.repo_name ⟨"x/y", 25, 0⟩) = 25 := by decide
  have hl : (List.replicate (α := Nat) 25 0).length = 25 := by decide
  rw [hc, hl, applyFactor_eq_floor 25 25] at h1
  norm_num at h1

/-- C1 (amended): for every call with a non-empty requested-hours list, each
returned row's `star_velocity` and `commit_frequency` equal the raw event
counts summed over the sampled hours multiplied by `24 / len(requested_hours)`
and truncated — provided fewer than 24 hours are requested (the code
extrapolates only when the factor exceeds 1); when 24 or more hours are
requested the raw summed counts are returned unchanged (for exactly 24 the
two readings coincide).  The factor depends only on the number of requested
hours — a failed or empty hour contributes zero raw events but does not
change it. -/
theorem velocity_extrapolation (fetch : Nat → List GHEvent) (specificHours : List Nat)
    (hne : specificHours ≠ []) :
    ∀ row ∈ getVelocityFeaturesForDate fetch specificHours,
      (specificHours.length < 24 →
        row.star_velocity =
          (Int.floor (((eventCount ((specificHours.map fetch).flatten) "WatchEvent"
            row.repo_name : ℚ)) * extrapolationFactor specificHours.length)).toNat ∧
        row.commit_frequency =
          (Int.floor (((eventCount ((specificHours.map fetch).flatten) "PushEvent"
            row.repo_name : ℚ)) * extrapolationFactor specificHours.length)).toNat) ∧
      (24 ≤ specificHours.length →
        row.star_velocity =
          eventCount ((specificHours.map fetch).flatten) "WatchEvent" row.repo_name ∧
        row.commit_frequency =
          eventCount ((specificHours.map fetch).flatten) "PushEvent" row.repo_name) := by
  intro row hrow
  unfold getVelocityFeaturesForDate at hrow
  by_cases hall : (specificHours.map fetch).flatten = []
  · rw [if_pos hall] at hrow
    simp at hrow
  · rw [if_neg hall] at hrow
    obtain ⟨r, -, rfl⟩ := List.mem_map.1 hrow
    constructor
    · intro hlt
      constructor
      · show applyFactor specificHours.length _ = _
        rw [applyFactor, if_pos hlt, applyFactor_eq_floor]
      · show applyFactor specificHours.length _ = _
        rw [applyFactor, if_pos hlt, applyFactor_eq_floor]
    · intro hge
      constructor
      · show applyFactor specificHours.length _ = _
        rw [applyFactor, if_neg (by omega)]
      · show applyFactor specificHours.length _ = _
        rw [applyFactor, if_neg (by omega)]

/-- C1 witness: the spec's own example — hours `[12, 23]`, raw star counts
3 and 1 for repo `X`, so `star_velocity(X) = int(4 * 12) = 48`. -/
theorem velocity_extrapolation_witness :
    (([12, 23] : List Nat).length < 24 →
      (VelRow.mk "X" 48 0).star_velocity =
        (Int.floor (((eventCount (([12, 23].map fetchSpecExample)).flatten "WatchEvent"
          (VelRow.mk "X" 48 0).repo_name : ℚ)) *
          extrapolationFactor ([12, 23] : List Nat).length)).toNat ∧
      (VelRow.mk "X" 48 0).commit_frequency =
        (Int.floor (((eventCount (([12, 23].map fetchSpecExample)).flatten "PushEvent"
          (VelRow.mk "X" 48 0).repo_name : ℚ)) *
          extrapolationFactor ([12, 23] : List Nat).length)).toNat) ∧
    (24 ≤ ([12, 23] : List Nat).length →
      (VelRow.mk "X" 48 0).star_velocity =
        eventCount (([12, 23].map fetchSpecExample)).flatten "WatchEvent"
          (VelRow.mk "X" 48 0).repo_name ∧
      (VelRow.mk "X" 48 0).commit_frequency =
        eventCount (([12, 23].map fetchSpecExample)).flatten "PushEvent"
          (VelRow.mk "X" 48 0).repo_name) :=
  velocity_extrapolation fetchSpecExample [12, 23] (by decide) ⟨"X", 48, 0⟩ (by decide)

/-! ## Claims C6–C10 -/

theorem metadataFields_default (m : Except Unit (Option GhData))
    (hm : MetadataFailedOrEmpty m) : metadataFields m = (0, 0, "Unknown", none) := by
  cases m with
  | error e => rfl
  | ok o =>
    cases o with
    | none => rfl
    | some g =>
      unfold MetadataFailedOrEmpty at hm
      simp [metadataFields, hm]

/-- C6: when the metadata source fails or returns empty for `r` while the
rate and buzz fetches succeed, the batch still contains a record for `r`
(the failure is absorbed inside `enrich_repo`, never propagated) whose
metadata fields are the defaults `0 / 0 / "Unknown"` and whose rate and buzz
fields are the ones looked up in the successfully fetched tables. -/
theorem enrich_batch_metadata_default (parseTS : String → Option Int)
    (metaOf : String → Except Unit (Option GhData))
    (arows : List VelRow) (hrows : List HNRow) (fault : String → Bool)
    (repoNames : List String) (dateStr : String) (currentSec : Int) (r : String)
    (hr : r ∈ repoNames) (hfault : fault r = false)
    (hmeta : MetadataFailedOrEmpty (metaOf r)) :
    ∃ rec ∈ (enrichBatch parseTS metaOf (.ok arows) (.ok hrows) false false fault
        repoNames dateStr currentSec).1,
      rec.repo_name = r ∧
      rec.stars_total = 0 ∧ rec.forks_total = 0 ∧ rec.language = "Unknown" ∧
      rec.star_velocity = (archiveFields r (.ok arows)).1 ∧
      rec.commit_frequency = (archiveFields r (.ok arows)).2 ∧
      rec.hn_buzz_score = hnField r (.ok hrows) := by
  refine ⟨enrichRepo parseTS ⟨metaOf r, .ok arows, .ok hrows⟩ r dateStr currentSec,
    List.mem_map.2 ⟨r, List.mem_filter.2 ⟨hr, by simp [hfault]⟩, rfl⟩, ?_⟩
  simp [enrichRepo, metadataFields_default _ hmeta]

/-- C6 witness: one repository whose metadata call raises, with concrete
archive and buzz tables. -/
theorem enrich_batch_metadata_default_witness :
    ∃ rec ∈ (enrichBatch (fun _ => none) (fun _ => .error ())
        (.ok [⟨"a/b", 7, 3⟩]) (.ok [⟨"a/b", (2 : ℚ)⟩]) false false (fun _ => false)
        ["a/b"] "2024-12-01" 0).1,
      rec.repo_name = "a/b" ∧
      rec.stars_total = 0 ∧ rec.forks_total = 0 ∧ rec.language = "Unknown" ∧
      rec.star_velocity = (archiveFields "a/b" (.ok [⟨"a/b", 7, 3⟩])).1 ∧
      rec.commit_frequency = (archiveFields "a/b" (.ok [⟨"a/b", 7, 3⟩])).2 ∧
      rec.hn_buzz_score = hnField "a/b" (.ok [⟨"a/b", (2 : ℚ)⟩]) :=
  enrich_batch_metadata_default (fun _ => none) (fun _ => .error ())
    [⟨"a/b", 7, 3⟩] [⟨"a/b", (2 : ℚ)⟩] (fun _ => false) ["a/b"] "2024-12-01" 0 "a/b"
    (by decide) rfl trivial

/-- C7: a worker fault (timeout or exception) for one repository is absorbed:
the batch call is total, its failure count is exactly the number of faulted
repositories, and the returned records are exactly the enrichments of the
non-faulted repositories. -/
theorem enrich_batch_fault_isolation (parseTS : String → Option Int)
    (metaOf : String → Except Unit (Option GhData))
    (archiveFetch : Except Unit (List VelRow)) (hnFetch : Except Unit (List HNRow))
    (skipArchive skipHN : Bool) (fault : String → Bool)
    (repoNames : List String) (dateStr : String) (currentSec : Int) :
    (enrichBatch parseTS metaOf archiveFetch hnFetch skipArchive skipHN fault
        repoNames dateStr currentSec).2 =
      (repoNames.filter (fun r => fault r)).length ∧
    ∀ rec, rec ∈ (enrichBatch parseTS metaOf archiveFetch hnFetch skipArchive skipHN fault
        repoNames dateStr currentSec).1 ↔
      ∃ r ∈ repoNames, fault r = false ∧
        rec = enrichRepo parseTS
          ⟨metaOf r,
           .ok (if skipArchive then []
                else match archiveFetch with | .ok t => t | .error _ => []),
           .ok (if skipHN then []
                else match hnFetch with | .ok t => t | .error _ => [])⟩
          r dateStr currentSec := by
  refine ⟨rfl, ?_⟩
  intro rec
  unfold enrichBatch
  simp only [List.mem_map, List.mem_filter, Bool.not_eq_eq_eq_not, Bool.not_true]
  constructor
  · rintro ⟨r, ⟨hmem, hf⟩, rfl⟩
    exact ⟨r, hmem, hf, rfl⟩
  · rintro ⟨r, hmem, hf, rfl⟩
    exact ⟨r, ⟨hmem, hf⟩, rfl⟩

/-- C8: the derived ratios of every produced record satisfy
`fork_rate = forks_total / max(stars_total, 1)` and
`stars_per_day = stars_total / max(days_old, 1)`; both denominators are
positive (no division by zero) and both ratios are non-negative. -/
theorem enrich_repo_ratios (parseTS : String → Option Int) (src : EnrichSources)
    (repoName dateStr : String) (currentSec : Int) :
    (enrichRepo parseTS src repoName dateStr currentSec).fork_rate =
      ((enrichRepo parseTS src repoName dateStr currentSec).forks_total : ℚ) /
        ((max (enrichRepo parseTS src repoName dateStr currentSec).stars_total 1 : Nat) : ℚ) ∧
    (0 : ℚ) < ((max (enrichRepo parseTS src repoName dateStr currentSec).stars_total 1 : Nat) : ℚ) ∧
    0 ≤ (enrichRepo parseTS src repoName dateStr currentSec).fork_rate ∧
    (enrichRepo parseTS src repoName dateStr currentSec).stars_per_day =
      ((enrichRepo parseTS src repoName dateStr currentSec).stars_total : ℚ) /
        ((max (enrichRepo parseTS src repoName dateStr currentSec).days_old 1 : Nat) : ℚ) ∧
    (0 : ℚ) < ((max (enrichRepo parseTS src repoName dateStr currentSec).days_old 1 : Nat) : ℚ) ∧
    0 ≤ (enrichRepo parseTS src repoName dateStr currentSec).stars_per_day := by
  refine ⟨rfl, ?_, div_nonneg (Nat.cast_nonneg _) (Nat.cast_nonneg _), rfl, ?_,
    div_nonneg (Nat.cast_nonneg _) (Nat.cast_nonneg _)⟩
  · exact_mod_cast Nat.lt_of_lt_of_le Nat.one_pos (Nat.le_max_right _ _)
  · exact_mod_cast Nat.lt_of_lt_of_le Nat.one_pos (Nat.le_max_right _ _)

/-- C9: `_compute_days_old` yields 0 for a missing or unparseable creation
timestamp, clamps a future creation timestamp (negative computed age) to 0,
and is non-negative for every input. -/
theorem compute_days_old_spec (parseTS : String → Option Int) (currentSec : Int)
    (s : String) (t : Int) :
    computeDaysOld parseTS none currentSec = 0 ∧
    (parseTS s = none → computeDaysOld parseTS (some s) currentSec = 0) ∧
    (parseTS s = some t → currentSec < t →
      computeDaysOld parseTS (some s) currentSec = 0) ∧
    (∀ createdAt, 0 ≤ computeDaysOld parseTS createdAt currentSec) := by
  refine ⟨rfl, ?_, ?_, fun _ => Nat.zero_le _⟩
  · intro hp
    simp [computeDaysOld, hp]
  · intro hp hlt
    simp only [computeDaysOld, hp]
    have hneg : (currentSec - t).fdiv 86400 < 0 := by
      apply Int.fdiv_neg' (by omega) (by norm_num)
    omega

/-- C9 witness: an unparseable timestamp and a future timestamp both give 0. -/
theorem compute_days_old_spec_witness :
    computeDaysOld (fun _ => none) (some "not-a-timestamp") 1000 = 0 ∧
    computeDaysOld (fun _ => some 86400) (some "2099-01-01T00:00:00Z") 0 = 0 :=
  ⟨(compute_days_old_spec (fun _ => none) 1000 "not-a-timestamp" 0).2.1 rfl,
   (compute_days_old_spec (fun _ => some 86400) 0 "2099-01-01T00:00:00Z" 86400).2.2.1
     rfl (by decide)⟩

/-- C10: `enrich_repo` is total — it always returns a record carrying the
requested repository name and formatted collection date; with every source
failing it returns the all-default record (so `None` is never produced), and
consequently a repository is present in the batch result whenever its worker
did not fault. -/
theorem enrich_repo_total (parseTS : String → Option Int) (src : EnrichSources)
    (repoName dateStr : String) (currentSec : Int)
    (metaOf : String → Except Unit (Option GhData))
    (archiveFetch : Except Unit (List VelRow)) (hnFetch : Except Unit (List HNRow))
    (skipArchive skipHN : Bool) (fault : String → Bool)
    (repoNames : List String) :
    (enrichRepo parseTS src repoName dateStr currentSec).repo_name = repoName ∧
    (enrichRepo parseTS src repoName dateStr currentSec).collection_date = dateStr ∧
    enrichRepo parseTS ⟨.error (), .error (), .error ()⟩ repoName dateStr currentSec =
      { repo_name := repoName, collection_date := dateStr, stars_total := 0,
        forks_total := 0, star_velocity := 0, commit_frequency := 0,
        hn_buzz_score := 0, language := "Unknown", days_old := 0, fork_rate := 0,
        popularity_score := 0, stars_per_day := 0, created_at := none } ∧
    (∀ r ∈ repoNames, fault r = false →
      ∃ rec ∈ (enrichBatch parseTS metaOf archiveFetch hnFetch skipArchive skipHN fault
          repoNames dateStr currentSec).1, rec.repo_name = r) := by
  refine ⟨rfl, rfl, ?_, ?_⟩
  · norm_num [enrichRepo, metadataFields, archiveFields, hnField, computeDaysOld]
  · intro r hmem hf
    exact ⟨enrichRepo parseTS _ r dateStr currentSec,
      List.mem_map.2 ⟨r, List.mem_filter.2 ⟨hmem, by simp [hf]⟩, rfl⟩, rfl⟩

/-- C10 witness: all three sources raising still yields the default record,
and a non-faulted repository appears in the batch. -/
theorem enrich_repo_total_witness :
    (enrichRepo (fun _ => none) ⟨.error (), .error (), .error ()⟩ "a/b" "2024-12-01" 0 =
      { repo_name := "a/b", collection_date := "2024-12-01", stars_total := 0,
        forks_total := 0, star_velocity := 0, commit_frequency := 0,
        hn_buzz_score := 0, language := "Unknown", days_old := 0, fork_rate := 0,
        popularity_score := 0, stars_per_day := 0, created_at := none }) ∧
    ∃ rec ∈ (enrichBatch (fun _ => none) (fun _ => .error ()) (.error ()) (.error ())
        false false (fun _ => false) ["a/b"] "2024-12-01" 0).1,
      rec.repo_name = "a/b" :=
  ⟨(enrich_repo_total (fun _ => none) ⟨.error (), .error (), .error ()⟩ "a/b"
      "2024-12-01" 0 (fun _ => .error ()) (.error ()) (.error ()) false false
      (fun _ => false) ["a/b"]).2.2.1,
   (enrich_repo_total (fun _ => none) ⟨.error (), .error (), .error ()⟩ "a/b"
      "2024-12-01" 0 (fun _ => .error ()) (.error ()) (.error ()) false false
      (fun _ => false) ["a/b"]).2.2.2 "a/b" (by decide) rfl⟩

end GithubTrendPredictor
